import Mathlib

/-!
# Wasp state layer: the `Map` collection datatype and the state-update record

A shallow embedding of `packages/kv/datatypes/map.go`,
`packages/state/stateupdate.go` and `Committee` of `tools/cluster/cluster.go`.

* Bytes are `Fin 256`; Go strings and `[]byte` are lists of bytes.
* `uint32` values are natural numbers, with `% 2 ^ 32` written out where the Go
  arithmetic can wrap.
* A Go method with a pointer receiver that mutates its receiver becomes a
  function returning the receiver's new value.  The `kv` field of a `Map` is the
  current content of the store the Go value refers to.
* A Go `error` result is an `Option Error` (`none` is `nil`) next to the new
  state, or an `Except Error _` where Go returns no value together with the error.
* A Go call that can panic ends in an `Outcome`: a normal return or the panic.
-/

namespace Wasp

/-- One octet. -/
abbrev Byte := Fin 256

/-- Go `kv.Key`: an opaque byte string. -/
abbrev Key := List Byte

/-- The errors the modelled code can return. -/
inductive Error where
  /-- an opaque failure reported by the raw store -/
  | store (code : Nat)
  /-- Go `errors.New("corrupted data")` in `Map.len` -/
  | corruptedData
  /-- Go `io.EOF` -/
  | eof
  /-- an opaque failure reported by an `io.Writer` -/
  | writer (code : Nat)
  deriving DecidableEq, Repr

/-! ## The raw store -/

/-- Byte-lexicographic strict order on keys (Go `bytes.Compare(a, b) < 0`). -/
def keyLt : Key → Key → Bool
  | [], [] => false
  | [], _ :: _ => true
  | _ :: _, [] => false
  | a :: as, b :: bs => if a < b then true else if a = b then keyLt as bs else false

/-- The value of the first entry stored under `k`, if there is one. -/
def lookupEntry (k : Key) : List (Key × List Byte) → Option (List Byte)
  | [] => none
  | (k', v) :: rest => if k' = k then some v else lookupEntry k rest

/-- Put `(k, v)` at its place in key order, replacing the entry for `k`. -/
def insertEntry (k : Key) (v : List Byte) : List (Key × List Byte) → List (Key × List Byte)
  | [] => [(k, v)]
  | (k', v') :: rest =>
    if keyLt k k' then (k, v) :: (k', v') :: rest
    else if k' = k then (k, v) :: rest
    else (k', v') :: insertEntry k v rest

/-- Remove every entry stored under `k`. -/
def eraseEntry (k : Key) : List (Key × List Byte) → List (Key × List Byte)
  | [] => []
  | (k', v') :: rest =>
    if k' = k then eraseEntry k rest else (k', v') :: eraseEntry k rest

/-- Modelled from the spec: the raw store, Go interface `kv.KVStore`, whose
declaration and implementations are not among the source files.  The spec
(section 6) requires `get(key) -> bytes|absent`, `set(key, bytes)`,
`delete(key)`, `has(key) -> bool` on an ordered byte-keyed store (section 3:
assume byte-lexicographic order), and section 7 lets a store operation fail with
an opaque `StoreError`.  In `map.go` only `Get` and `Has` return an error; `Set`
and `Del` are called as statements.

`entries` is the content, kept in key order by `Set`.  `fault k` is the error
the store reports for a point read (`Get` or `Has`) of key `k`, `none` when the
read works; writes do not change it.  `scanFault p` is the error the store
reports for `iteratePrefix` with the prefix `p`, `none` (the default) when the
scan works. -/
structure KVStore where
  entries : List (Key × List Byte)
  fault : Key → Option Error
  scanFault : Key → Option Error := fun _ => none

/-- A store with no record, whose reads never fail. -/
def KVStore.empty : KVStore := { entries := [], fault := fun _ => none }

/-- What the store holds under `k`, read without going through `Get`. -/
def KVStore.content (s : KVStore) (k : Key) : Option (List Byte) :=
  lookupEntry k s.entries

/-- Store `Get`: the value under `k`, `none` (Go `nil`) when absent. -/
def KVStore.Get (s : KVStore) (k : Key) : Except Error (Option (List Byte)) :=
  match s.fault k with
  | some e => .error e
  | none => .ok (s.content k)

/-- Store `Has`. -/
def KVStore.Has (s : KVStore) (k : Key) : Except Error Bool :=
  match s.fault k with
  | some e => .error e
  | none => .ok (s.content k).isSome

/-- Store `Set`. -/
def KVStore.Set (s : KVStore) (k : Key) (v : List Byte) : KVStore :=
  { s with entries := insertEntry k v s.entries }

/-- Store `Del`. -/
def KVStore.Del (s : KVStore) (k : Key) : KVStore :=
  { s with entries := eraseEntry k s.entries }

/-- The scan behind the store's `iteratePrefix`: the visitor `f`, which carries
a state of type `σ`, is called on every entry whose key starts with `pfx`, in
the order of the entries, until it returns `false`. -/
def scanEntries {σ : Type} (pfx : Key) (f : σ → Key → List Byte → Bool × σ) :
    σ → List (Key × List Byte) → σ
  | st, [] => st
  | st, (k, v) :: rest =>
    if pfx <+: k then
      match f st k v with
      | (true, st') => scanEntries pfx f st' rest
      | (false, st') => st'
    else scanEntries pfx f st rest

/-- Store `Iterate` (spec, section 6: `iteratePrefix(prefix, visitor)` where the
visitor returning false halts the scan early): the visitor's state afterwards and
the returned error.  A Go visitor is a closure; its captured variables are the
state `σ`.  A scan that fails calls the visitor for no entry. -/
def KVStore.Iterate {σ : Type} (s : KVStore) (pfx : Key)
    (f : σ → Key → List Byte → Bool × σ) (init : σ) : σ × Option Error :=
  match s.scanFault pfx with
  | some e => (init, some e)
  | none => (scanEntries pfx f init s.entries, none)

/-- The entries are in strictly increasing key order. -/
def sortedEntries (l : List (Key × List Byte)) : Prop :=
  l.Pairwise (fun a b => keyLt a.1 b.1 = true)

/-! ## `util` helpers -/

/-- The `i`-th little-endian octet of `n`. -/
def octet (n i : Nat) : Byte := ⟨n / 256 ^ i % 256, Nat.mod_lt _ (by decide)⟩

/-- The number a byte string denotes, least significant octet first. -/
def decodeLE : List Byte → Nat
  | [] => 0
  | b :: rest => b.val + 256 * decodeLE rest

/-- Modelled from the spec: `util.Uint32To4Bytes`, not among the source files.
The spec (section 3) says the size record's value is a "4-byte unsigned
count"; the byte order is not stated there and little-endian is taken. -/
def Uint32To4Bytes (size : Nat) : List Byte :=
  [octet size 0, octet size 1, octet size 2, octet size 3]

/-- Modelled from the spec: `util.MustUint32From4Bytes`, not among the source
files; the inverse of `Uint32To4Bytes`.  The Go function aborts on an input that
is not 4 bytes long, which is the precondition `_h` here. -/
def MustUint32From4Bytes (b : List Byte) (_h : b.length = 4) : Nat :=
  decodeLE b

/-! ## `Map` -/

/-- Go `type Map struct { kv; name; cachedsize uint32 }`. -/
structure Map where
  kv : KVStore
  name : List Byte
  cachedsize : Nat

def mapSizeKeyCode : Byte := 0

def mapElemKeyCode : Byte := 1

/-- Go `(*Map).getSizeKey`. -/
def Map.getSizeKey (m : Map) : Key :=
  m.name ++ [mapSizeKeyCode]

/-- Go `(*Map).getElemKey`. -/
def Map.getElemKey (m : Map) (key : List Byte) : Key :=
  m.name ++ [mapElemKeyCode] ++ key

/-- Go `(*Map).setSize`.  For `size == 0` the size record is deleted and the
function returns before the assignment to `cachedsize`. -/
def Map.setSize (m : Map) (size : Nat) : Map :=
  if size = 0 then
    { m with kv := m.kv.Del m.getSizeKey }
  else
    let m1 := { m with cachedsize := size }
    { m1 with kv := m1.kv.Set m1.getSizeKey (Uint32To4Bytes size) }

/-- Go `(*Map).GetAt`. -/
def Map.GetAt (d : Map) (key : List Byte) : Except Error (Option (List Byte)) :=
  match d.kv.Get (d.getElemKey key) with
  | .error err => .error err
  | .ok ret => .ok ret

/-- Go `(*Map).HasAt`. -/
def Map.HasAt (d : Map) (key : List Byte) : Except Error Bool :=
  d.kv.Has (d.getElemKey key)

/-- Go `(*Map).Len`. -/
def Map.Len (d : Map) : Nat :=
  d.cachedsize

/-- Go `(*Map).SetAt`: the map afterwards and the returned error. -/
def Map.SetAt (d : Map) (key value : List Byte) : Map × Option Error :=
  if d.Len = 0 then
    let d1 := d.setSize 1
    ({ d1 with kv := d1.kv.Set (d1.getElemKey key) value }, none)
  else
    match d.HasAt key with
    | .error err => (d, some err)
    | .ok ok =>
      let d1 := if !ok then d.setSize ((d.Len + 1) % 2 ^ 32) else d
      ({ d1 with kv := d1.kv.Set (d1.getElemKey key) value }, none)

/-- Go `(*Map).DelAt`: the map afterwards and the returned error.  `d.Len() - 1`
on `uint32` is `(2 ^ 32 + d.Len - 1) % 2 ^ 32`, the constant written first so
that evaluation stops at a symbolic `d.Len`. -/
def Map.DelAt (d : Map) (key : List Byte) : Map × Option Error :=
  match d.HasAt key with
  | .error err => (d, some err)
  | .ok ok =>
    let d1 := if ok then d.setSize ((2 ^ 32 + d.Len - 1) % 2 ^ 32) else d
    ({ d1 with kv := d1.kv.Del (d1.getElemKey key) }, none)

/-- Go `(*Map).len`: the count persisted in the size record. -/
def Map.len (d : Map) : Except Error Nat :=
  match d.kv.Get d.getSizeKey with
  | .error err => .error err
  | .ok none => .ok 0
  | .ok (some v) =>
    if h : v.length ≠ 4 then .error Error.corruptedData
    else .ok (MustUint32From4Bytes v (not_not.mp h))

/-- Go `NewMap`. -/
def NewMap (kv : KVStore) (name : List Byte) : Except Error Map :=
  let ret : Map := { kv := kv, name := name, cachedsize := 0 }
  match ret.len with
  | .error err => .error err
  | .ok n => .ok { ret with cachedsize := n }

/-- One call made through a `Map` instance. -/
inductive Call where
  | setAt (key value : List Byte)
  | delAt (key : List Byte)
  deriving DecidableEq, Repr

/-- Perform one call, dropping the returned error. -/
def Map.call (d : Map) : Call → Map
  | .setAt key value => (d.SetAt key value).1
  | .delAt key => (d.DelAt key).1

/-- Perform the calls from left to right. -/
def Map.run (d : Map) (cs : List Call) : Map :=
  cs.foldl Map.call d

/-- The `Map` value `B` when the store it refers to holds `s`. -/
def Map.withStore (B : Map) (s : KVStore) : Map := { B with kv := s }

/-- The map named `m` on an empty store, as `NewMap` returns it. -/
def emptyM : Map := { kv := KVStore.empty, name := [109], cachedsize := 0 }

/-- A store holding one element record of the map named `m`, for the element
key `x`, and no size record. -/
def orphanStore : KVStore := { entries := [([109, 1, 120], [49])], fault := fun _ => none }

/-- The map `NewMap` returns on `orphanStore`. -/
def orphanM : Map := { kv := orphanStore, name := [109], cachedsize := 0 }

/-! ## Readers and writers -/

/-- Go `bytes.Reader`, the `io.Reader` over a byte slice: the bytes not yet
read. -/
structure Reader where
  rest : List Byte

/-- Go `(*bytes.Reader).Read(p)` with `len(p) = n`: at the end of the input it
returns 0 and `io.EOF`; otherwise it copies `min(n, remaining)` bytes and returns
no error, also when that is fewer than `n`.  The result is the bytes copied, the
reader afterwards and the error. -/
def Reader.Read (r : Reader) (n : Nat) : (List Byte × Reader) × Option Error :=
  if r.rest.isEmpty then (([], r), some Error.eof)
  else ((r.rest.take n, { rest := r.rest.drop n }), none)

/-- An `io.Writer`: `out` is what has been written.  With `room = none` it is a
Go `bytes.Buffer`, whose `Write` never fails; with `room = some n` it accepts `n`
more bytes and a `Write` that needs more writes what fits and returns an
error. -/
structure Writer where
  out : List Byte
  room : Option Nat

/-- An empty `bytes.Buffer`. -/
def Writer.buffer : Writer := { out := [], room := none }

/-- Go `w.Write(p)`: the writer afterwards, the number of bytes written and the
error. -/
def Writer.Write (w : Writer) (p : List Byte) : (Writer × Nat) × Option Error :=
  match w.room with
  | none => (({ w with out := w.out ++ p }, p.length), none)
  | some n =>
    if p.length ≤ n then
      (({ out := w.out ++ p, room := some (n - p.length) }, p.length), none)
    else
      (({ out := w.out ++ p.take n, room := some 0 }, n), some (Error.writer 0))

/-! ## The state-update record -/

/-- What `stateupdate.go` uses from packages that are not among the source
files, taken as parameters: `util.WriteUint16`, `util.ReadUint16`, the byte width
of the array type `sctransaction.RequestId`, and the variable payload
`variables.Variables` (values of type `V`) with `variables.New(nil)` and its
`Write` and `Read` methods.  `ReadUint16 r old` is given the current value of
`*pval` and returns the reader afterwards, the value of `*pval` afterwards and
the error; `varsRead` likewise for the payload it is called on. -/
structure Externals (V : Type) where
  WriteUint16 : Writer → Nat → Writer × Option Error
  ReadUint16 : Reader → Nat → (Reader × Nat) × Option Error
  RequestIdSize : Nat
  varsNew : V
  varsWrite : V → Writer → Writer × Option Error
  varsRead : V → Reader → (V × Reader) × Option Error

/-- Go `type stateUpdate struct { batchIndex uint16; requestId; vars }`. -/
structure stateUpdate (V : Type) where
  batchIndex : Nat
  requestId : List Byte
  vars : V

/-- Go `NewStateUpdate(reqid)`; `none` is a `nil` pointer, for which the request
id stays the zero array. -/
def NewStateUpdate {V : Type} (E : Externals V) (reqid : Option (List Byte)) : stateUpdate V :=
  let req : List Byte :=
    match reqid with
    | some r => r
    | none => List.replicate E.RequestIdSize 0
  { batchIndex := 0, requestId := req, vars := E.varsNew }

/-- Go `(*stateUpdate).Write`: the writer afterwards and the returned error. -/
def stateUpdate.Write {V : Type} (E : Externals V) (su : stateUpdate V) (w : Writer) :
    Writer × Option Error :=
  match E.WriteUint16 w su.batchIndex with
  | (w1, some err) => (w1, some err)
  | (w1, none) =>
    match w1.Write su.requestId with
    | ((w2, _), some err) => (w2, some err)
    | ((w2, _), none) =>
      match E.varsWrite su.vars w2 with
      | (w3, some err) => (w3, some err)
      | (w3, none) => (w3, none)

/-- Go `(*stateUpdate).Read`: the record and the reader afterwards, and the
returned error.  `r.Read(su.requestId[:])` overwrites as many leading bytes of
the request id as it copied. -/
def stateUpdate.Read {V : Type} (E : Externals V) (su : stateUpdate V) (r : Reader) :
    (stateUpdate V × Reader) × Option Error :=
  match E.ReadUint16 r su.batchIndex with
  | ((r1, bi), some err) => (({ su with batchIndex := bi }, r1), some err)
  | ((r1, bi), none) =>
    let su1 := { su with batchIndex := bi }
    match r1.Read su1.requestId.length with
    | ((got, r2), some err) =>
      (({ su1 with requestId := got ++ su1.requestId.drop got.length }, r2), some err)
    | ((got, r2), none) =>
      let su2 := { su1 with requestId := got ++ su1.requestId.drop got.length }
      match E.varsRead su2.vars r2 with
      | ((vs, r3), some err) => (({ su2 with vars := vs }, r3), some err)
      | ((vs, r3), none) => (({ su2 with vars := vs }, r3), none)

/-- Go `NewStateUpdateRead`: it returns the record together with the error of
`Read`. -/
def NewStateUpdateRead {V : Type} (E : Externals V) (r : Reader) :
    (stateUpdate V × Reader) × Option Error :=
  (NewStateUpdate E none).Read E r

/-- An instance of the parameters: 16-bit integers written as two bytes, least
significant first, with one `Write` and read back with one `Read`; a request id
of 4 bytes; a variable payload that is a byte string, written as it is and read
as all the bytes that remain. -/
def rawExternals : Externals (List Byte) where
  WriteUint16 w val :=
    let res := w.Write [octet val 0, octet val 1]
    (res.1.1, res.2)
  ReadUint16 r old :=
    match r.Read 2 with
    | ((_, r1), some err) => ((r1, old), some err)
    | ((got, r1), none) => ((r1, decodeLE got), none)
  RequestIdSize := 4
  varsNew := []
  varsWrite v w :=
    let res := w.Write v
    (res.1.1, res.2)
  varsRead _ r := ((r.rest, { rest := [] }), none)

/-- A state update: batch index 3, request id `1 2 3 4`, payload `107 118`. -/
def sampleUpdate : stateUpdate (List Byte) :=
  { batchIndex := 3, requestId := [1, 2, 3, 4], vars := [107, 118] }

/-- A map named `a` and a map named `b` over one store, which holds an element
record of `b`. -/
def sharedStore : KVStore := { entries := [([98, 1, 7], [9])], fault := fun _ => none }

def mapA : Map := { kv := sharedStore, name := [97], cachedsize := 0 }

def mapB : Map := { kv := sharedStore, name := [98], cachedsize := 0 }

/-! ## `Iterate`, `Erase` and `MustMap` -/

/-- Go `(*Map).Iterate`: the visitor's state afterwards and the returned error.
The visitor `f` is given the store key without its first `len(prefix)` bytes. -/
def Map.Iterate {σ : Type} (d : Map) (f : σ → List Byte → List Byte → Bool × σ) (init : σ) :
    σ × Option Error :=
  let pfx := d.getElemKey []
  d.kv.Iterate pfx (fun st key value => f st (key.drop pfx.length) value) init

/-- The element records of a map, in the order of the store: each as the
element key (the store key without the name and the role byte) and the value. -/
def Map.records (d : Map) : List (List Byte × List Byte) :=
  (d.kv.entries.filter (fun e => decide (d.getElemKey [] <+: e.1))).map
    (fun e => (e.1.drop (d.getElemKey []).length, e.2))

/-- What the spec asks of an iteration over the records `recs`: the visitor is
called on them one after the other, once each, and not again after it has
returned `false`. -/
def visitUntilStop {σ : Type} (f : σ → List Byte → List Byte → Bool × σ) :
    σ → List (List Byte × List Byte) → σ
  | st, [] => st
  | st, (k, v) :: rest =>
    match f st k v with
    | (true, st') => visitUntilStop f st' rest
    | (false, st') => st'

/-- A visitor that records each call and goes on while `go` allows it: its
state is the list of the calls made so far. -/
def logCalls (go : List Byte → List Byte → Bool) :
    List (List Byte × List Byte) → List Byte → List Byte → Bool × List (List Byte × List Byte) :=
  fun calls k v => (go k v, calls ++ [(k, v)])

/-- The value a Go `panic` is raised with. -/
inductive Panic where
  /-- `panic(err)` -/
  | err (e : Error)
  /-- `panic("implement me")` -/
  | implementMe
  deriving DecidableEq, Repr

/-- How a call of a Go function that can panic ends. -/
inductive Outcome (α : Type) where
  | returned (a : α)
  | panicked (p : Panic)
  deriving DecidableEq, Repr

/-- Go `(*Map).Erase`: the map (with its store) when the call ends, and how it
ends. -/
def Map.Erase (d : Map) : Map × Outcome Unit :=
  (d, .panicked Panic.implementMe)

/-- Go `type MustMap struct { m Map }`. -/
structure MustMap where
  m : Map

/-- Go `NewMustMap`: `&MustMap{*m}` copies the fields of `*m`. -/
def NewMustMap (m : Map) : MustMap :=
  { m := m }

/-- Go `(*MustMap).GetAt`. -/
def MustMap.GetAt (d : MustMap) (key : List Byte) : Outcome (Option (List Byte)) :=
  match d.m.GetAt key with
  | .error err => .panicked (Panic.err err)
  | .ok ret => .returned ret

/-- Go `(*MustMap).SetAt`: `_ = d.m.SetAt(key, value)`.  The result is the
`MustMap` afterwards and how the call ends. -/
def MustMap.SetAt (d : MustMap) (key value : List Byte) : MustMap × Outcome Unit :=
  ({ m := (d.m.SetAt key value).1 }, .returned ())

/-- Go `(*MustMap).DelAt`: `_ = d.m.DelAt(key)`. -/
def MustMap.DelAt (d : MustMap) (key : List Byte) : MustMap × Outcome Unit :=
  ({ m := (d.m.DelAt key).1 }, .returned ())

/-- Go `(*MustMap).HasAt`. -/
def MustMap.HasAt (d : MustMap) (key : List Byte) : Outcome Bool :=
  match d.m.HasAt key with
  | .error err => .panicked (Panic.err err)
  | .ok ret => .returned ret

/-- Go `(*MustMap).Len`. -/
def MustMap.Len (d : MustMap) : Nat :=
  d.m.cachedsize

/-- Go `(*MustMap).Iterate`: the visitor's state afterwards and how the call
ends. -/
def MustMap.Iterate {σ : Type} (d : MustMap) (f : σ → List Byte → List Byte → Bool × σ)
    (init : σ) : σ × Outcome Unit :=
  match d.m.Iterate f init with
  | (st, some err) => (st, .panicked (Panic.err err))
  | (st, none) => (st, .returned ())

/-- A store holding the map named `m` with the one key `x`, whose point reads
of the element key of `y` fail. -/
def flakyStore : KVStore :=
  { entries := [([109, 0], [1, 0, 0, 0]), ([109, 1, 120], [49])],
    fault := fun k => if k = [109, 1, 121] then some (Error.store 1) else none }

/-- The map `NewMap` returns on `flakyStore`. -/
def flakyM : Map := { kv := flakyStore, name := [109], cachedsize := 1 }

/-- A store holding the map named `m` with the keys `x`, `y`, `z`, and one
element record of a map named `n`. -/
def threeStore : KVStore :=
  { entries := [([109, 0], [3, 0, 0, 0]), ([109, 1, 120], [49]), ([109, 1, 121], [50]),
      ([109, 1, 122], [51]), ([110, 1, 120], [52])],
    fault := fun _ => none }

/-- The map `NewMap` returns on `threeStore` for the name `m`. -/
def threeM : Map := { kv := threeStore, name := [109], cachedsize := 3 }

/-! ## The cluster tool -/

/-- An element of Go `ClusterConfig.Nodes`. -/
structure Node where
  NetAddress : String
  ApiPort : Int
  PeeringPort : Int

/-- Go `ClusterConfig`, with the field `Committee` reads. -/
structure ClusterConfig where
  Nodes : List Node

/-- Go `SmartContractInitData`, with the field `Committee` reads. -/
structure SmartContractInitData where
  CommitteeNodes : List Int

/-- Go `Cluster`, with the field `Committee` reads. -/
structure Cluster where
  Config : ClusterConfig

/-- The error of `Committee`: "Node index out of bounds in smart contract
committee configuration: %d", with the index. -/
inductive CommitteeError where
  | nodeIndexOutOfBounds (i : Int)
  deriving DecidableEq, Repr

/-- Go `fmt.Sprintf("%s:%d", node.NetAddress, node.ApiPort)`. -/
def Node.url (node : Node) : String :=
  node.NetAddress ++ ":" ++ toString node.ApiPort

/-- The loop of Go `(*Cluster).Committee` over the indices still to visit, with
the list `committee` built so far. -/
def committeeLoop (nodes : List Node) :
    List Int → List String → Except CommitteeError (List String)
  | [], committee => .ok committee
  | i :: rest, committee =>
    if h : i < 0 ∨ i > (nodes.length : Int) - 1 then
      .error (CommitteeError.nodeIndexOutOfBounds i)
    else
      let node := nodes.get ⟨i.toNat, by omega⟩
      committeeLoop nodes rest (committee ++ [node.url])

/-- Go `(*Cluster).Committee`. -/
def Cluster.Committee (cluster : Cluster) (sc : SmartContractInitData) :
    Except CommitteeError (List String) :=
  committeeLoop cluster.Config.Nodes sc.CommitteeNodes []

/-- A map named `a` on an empty store; its element key for the key `0` is the
size key of a map named `a` followed by the byte 1. -/
def collideA : Map := { kv := KVStore.empty, name := [97], cachedsize := 0 }

/-- The entry `Committee` builds for the index `i`: the url of the node at that
index. -/
def isUrlOf (nodes : List Node) (i : Int) (u : String) : Prop :=
  ∃ node, nodes.get? i.toNat = some node ∧ u = node.url

/-- A cluster of two nodes. -/
def twoNodes : Cluster :=
  { Config := { Nodes := [{ NetAddress := "127.0.0.1", ApiPort := 9090, PeeringPort := 4000 },
      { NetAddress := "127.0.0.1", ApiPort := 9091, PeeringPort := 4001 }] } }

/-! ## A payload codec that rejects input cut short -/

/-- An empty store whose point reads of the element key of `x` in the map named
`m` fail. -/
def deafStore : KVStore :=
  { entries := [], fault := fun k => if k = [109, 1, 120] then some (Error.store 1) else none }

/-- The map `NewMap` returns on `deafStore`. -/
def deafM : Map := { kv := deafStore, name := [109], cachedsize := 0 }

theorem lookupEntry_insertEntry_self (k : Key) (v : List Byte) (l : List (Key × List Byte)) :
    lookupEntry k (insertEntry k v l) = some v := by
  induction l with
  | nil => simp [insertEntry, lookupEntry]
  | cons e rest ih =>
    obtain ⟨k', v'⟩ := e
    by_cases h1 : keyLt k k' = true
    · simp [insertEntry, lookupEntry, h1]
    · by_cases h2 : k' = k
      · subst h2
        simp only [insertEntry]
        split <;> simp [lookupEntry]
      · simp [insertEntry, lookupEntry, h1, h2, ih]

theorem lookupEntry_insertEntry_ne {k k' : Key} (h : k' ≠ k) (v : List Byte)
    (l : List (Key × List Byte)) :
    lookupEntry k' (insertEntry k v l) = lookupEntry k' l := by
  have h' : ¬ k = k' := fun e => h e.symm
  induction l with
  | nil => simp [insertEntry, lookupEntry, h']
  | cons e rest ih =>
    obtain ⟨k₁, v₁⟩ := e
    by_cases h1 : keyLt k k₁ = true
    · simp [insertEntry, lookupEntry, h1, h']
    · by_cases h2 : k₁ = k
      · subst h2
        simp [insertEntry, lookupEntry, h1, h']
      · simp [insertEntry, lookupEntry, h1, h2, ih]

theorem lookupEntry_eraseEntry_self (k : Key) (l : List (Key × List Byte)) :
    lookupEntry k (eraseEntry k l) = none := by
  induction l with
  | nil => simp [eraseEntry, lookupEntry]
  | cons e rest ih =>
    obtain ⟨k₁, v₁⟩ := e
    by_cases h2 : k₁ = k
    · simp [eraseEntry, h2, ih]
    · simp [eraseEntry, lookupEntry, h2, ih]

theorem lookupEntry_eraseEntry_ne {k k' : Key} (h : k' ≠ k) (l : List (Key × List Byte)) :
    lookupEntry k' (eraseEntry k l) = lookupEntry k' l := by
  have h' : ¬ k = k' := fun e => h e.symm
  induction l with
  | nil => simp [eraseEntry, lookupEntry]
  | cons e rest ih =>
    obtain ⟨k₁, v₁⟩ := e
    by_cases h2 : k₁ = k
    · subst h2
      simp [eraseEntry, lookupEntry, h', ih]
    · by_cases h3 : k₁ = k'
      · subst h3
        simp [eraseEntry, lookupEntry, h]
      · simp [eraseEntry, lookupEntry, h2, h3, ih]

theorem eraseEntry_of_lookupEntry_none {k : Key} {l : List (Key × List Byte)}
    (h : lookupEntry k l = none) : eraseEntry k l = l := by
  induction l with
  | nil => rfl
  | cons e rest ih =>
    obtain ⟨k₁, v₁⟩ := e
    by_cases h2 : k₁ = k
    · simp [lookupEntry, h2] at h
    · simp only [lookupEntry, h2, if_false] at h
      simp [eraseEntry, h2, ih h]

@[simp] theorem KVStore.fault_Set (s : KVStore) (k : Key) (v : List Byte) :
    (s.Set k v).fault = s.fault := rfl

@[simp] theorem KVStore.fault_Del (s : KVStore) (k : Key) : (s.Del k).fault = s.fault := rfl

@[simp] theorem KVStore.content_Set_self (s : KVStore) (k : Key) (v : List Byte) :
    (s.Set k v).content k = some v :=
  lookupEntry_insertEntry_self k v s.entries

theorem KVStore.content_Set_ne (s : KVStore) {k k' : Key} (h : k' ≠ k) (v : List Byte) :
    (s.Set k v).content k' = s.content k' :=
  lookupEntry_insertEntry_ne h v s.entries

@[simp] theorem KVStore.content_Del_self (s : KVStore) (k : Key) :
    (s.Del k).content k = none :=
  lookupEntry_eraseEntry_self k s.entries

theorem KVStore.content_Del_ne (s : KVStore) {k k' : Key} (h : k' ≠ k) :
    (s.Del k).content k' = s.content k' :=
  lookupEntry_eraseEntry_ne h s.entries

theorem KVStore.Del_of_content_none {s : KVStore} {k : Key} (h : s.content k = none) :
    s.Del k = s := by
  cases s with
  | mk entries fault scanFault =>
    simp only [KVStore.content] at h
    simp [KVStore.Del, eraseEntry_of_lookupEntry_none h]

theorem KVStore.Has_eq_ok {s : KVStore} {k : Key} {b : Bool} (h : s.Has k = .ok b) :
    s.fault k = none ∧ (s.content k).isSome = b := by
  unfold KVStore.Has at h
  cases hf : s.fault k with
  | some e => simp [hf] at h
  | none =>
    simp only [hf, Except.ok.injEq] at h
    exact ⟨rfl, h⟩


/-! ## Facts about the key scheme and the `Map` operations -/

theorem append_eq_append_prefix {A B x y : List Byte} (h : A ++ x = B ++ y) :
    A <+: B ∨ B <+: A := by
  induction A generalizing B with
  | nil => exact Or.inl (List.nil_prefix)
  | cons a A ih =>
    cases B with
    | nil => exact Or.inr (List.nil_prefix)
    | cons b B =>
      simp only [List.cons_append, List.cons.injEq] at h
      obtain ⟨hab, ht⟩ := h
      subst hab
      rcases ih ht with h1 | h1
      · exact Or.inl ((List.cons_prefix_cons).mpr ⟨rfl, h1⟩)
      · exact Or.inr ((List.cons_prefix_cons).mpr ⟨rfl, h1⟩)

theorem Map.getSizeKey_ne_getElemKey (m : Map) (k : List Byte) :
    m.getSizeKey ≠ m.getElemKey k := by
  simp [Map.getSizeKey, Map.getElemKey, mapSizeKeyCode, mapElemKeyCode]

theorem Map.getElemKey_inj (m : Map) {k k' : List Byte}
    (h : m.getElemKey k = m.getElemKey k') : k = k' := by
  simpa [Map.getElemKey] using h

@[simp] theorem Map.setSize_name (m : Map) (n : Nat) : (m.setSize n).name = m.name := by
  unfold Map.setSize; split <;> rfl

@[simp] theorem Map.setSize_fault (m : Map) (n : Nat) :
    (m.setSize n).kv.fault = m.kv.fault := by
  unfold Map.setSize; split <;> rfl

@[simp] theorem Map.setSize_getElemKey (m : Map) (n : Nat) (k : List Byte) :
    (m.setSize n).getElemKey k = m.getElemKey k := by
  simp [Map.getElemKey]

@[simp] theorem Map.setSize_getSizeKey (m : Map) (n : Nat) :
    (m.setSize n).getSizeKey = m.getSizeKey := by
  simp [Map.getSizeKey]

theorem Map.setSize_content_ne (m : Map) (n : Nat) {key : Key} (h : key ≠ m.getSizeKey) :
    (m.setSize n).kv.content key = m.kv.content key := by
  unfold Map.setSize
  split
  · exact KVStore.content_Del_ne _ h
  · exact KVStore.content_Set_ne _ h _

theorem Map.setSize_pos (m : Map) {n : Nat} (h : n ≠ 0) :
    (m.setSize n).cachedsize = n ∧
      (m.setSize n).kv.content m.getSizeKey = some (Uint32To4Bytes n) := by
  unfold Map.setSize
  rw [if_neg h]
  exact ⟨rfl, KVStore.content_Set_self _ _ _⟩


/-- What `SetAt` can touch: the name and the store's faults stay, and the content
changes at most under the size key and the element key of `k`. -/
theorem Map.SetAt_frame (d : Map) (k v : List Byte) :
    (d.SetAt k v).1.name = d.name ∧ (d.SetAt k v).1.kv.fault = d.kv.fault ∧
      ∀ key, key ≠ d.getSizeKey → key ≠ d.getElemKey k →
        (d.SetAt k v).1.kv.content key = d.kv.content key := by
  unfold Map.SetAt
  split
  · refine ⟨by simp, by simp, ?_⟩
    intro key h1 h2
    simp only [Map.setSize_getElemKey]
    rw [KVStore.content_Set_ne _ h2, Map.setSize_content_ne _ _ h1]
  · cases hh : d.HasAt k with
    | error e => simp
    | ok ok =>
      cases ok with
      | true =>
        simp only [Bool.not_true, Bool.false_eq_true, if_false, true_and, KVStore.fault_Set]
        intro key _ h2
        exact KVStore.content_Set_ne _ h2 _
      | false =>
        simp only [Bool.not_false, if_true, Map.setSize_getElemKey, Map.setSize_name,
          KVStore.fault_Set, Map.setSize_fault, true_and]
        intro key h1 h2
        rw [KVStore.content_Set_ne _ h2, Map.setSize_content_ne _ _ h1]

/-- What `DelAt` can touch. -/
theorem Map.DelAt_frame (d : Map) (k : List Byte) :
    (d.DelAt k).1.name = d.name ∧ (d.DelAt k).1.kv.fault = d.kv.fault ∧
      ∀ key, key ≠ d.getSizeKey → key ≠ d.getElemKey k →
        (d.DelAt k).1.kv.content key = d.kv.content key := by
  unfold Map.DelAt
  cases hh : d.HasAt k with
  | error e => simp
  | ok ok =>
    cases ok with
    | false =>
      simp only [Bool.false_eq_true, if_false, true_and, KVStore.fault_Del]
      intro key _ h2
      exact KVStore.content_Del_ne _ h2
    | true =>
      simp only [if_true, Map.setSize_getElemKey, Map.setSize_name,
        KVStore.fault_Del, Map.setSize_fault, true_and]
      intro key h1 h2
      rw [KVStore.content_Del_ne _ h2, Map.setSize_content_ne _ _ h1]


theorem Map.SetAt_of_absent (d : Map) (k v : List Byte) (hlen : d.Len < 2 ^ 32 - 1)
    (habs : d.HasAt k = .ok false) :
    d.SetAt k v =
      ({ d.setSize (d.Len + 1) with
          kv := (d.setSize (d.Len + 1)).kv.Set (d.getElemKey k) v }, none) := by
  unfold Map.SetAt
  split
  · next h0 => simp [h0]
  · have hmod : (d.Len + 1) % 2 ^ 32 = d.Len + 1 := Nat.mod_eq_of_lt (by omega)
    rw [hmod]
    simp [habs]

theorem Map.SetAt_of_present (d : Map) (k v : List Byte) (hlen : d.Len ≠ 0)
    (hpres : d.HasAt k = .ok true) :
    d.SetAt k v = ({ d with kv := d.kv.Set (d.getElemKey k) v }, none) := by
  unfold Map.SetAt
  simp [hlen, hpres]

theorem Map.SetAt_of_len_zero (d : Map) (k v : List Byte) (hlen : d.Len = 0) :
    d.SetAt k v =
      ({ d.setSize 1 with kv := (d.setSize 1).kv.Set (d.getElemKey k) v }, none) := by
  unfold Map.SetAt
  simp [hlen]

theorem Map.DelAt_of_absent (d : Map) (k : List Byte) (habs : d.HasAt k = .ok false) :
    d.DelAt k = (d, none) := by
  have hc : d.kv.content (d.getElemKey k) = none := by
    have := (KVStore.Has_eq_ok habs).2
    simpa using this
  unfold Map.DelAt
  simp [habs, KVStore.Del_of_content_none hc]

theorem Map.DelAt_ok (d : Map) (k : List Byte) (h : (d.DelAt k).2 = none) :
    ∃ b, d.HasAt k = .ok b := by
  unfold Map.DelAt at h
  cases hh : d.HasAt k with
  | error e => simp [hh] at h
  | ok b => exact ⟨b, rfl⟩

theorem Map.DelAt_content_self (d : Map) (k : List Byte) (h : (d.DelAt k).2 = none) :
    (d.DelAt k).1.kv.content (d.getElemKey k) = none := by
  obtain ⟨b, hb⟩ := Map.DelAt_ok d k h
  unfold Map.DelAt
  cases b <;> simp [hb]

theorem Map.HasAt_after_DelAt (d : Map) (k : List Byte) (h : (d.DelAt k).2 = none) :
    (d.DelAt k).1.HasAt k = .ok false := by
  obtain ⟨b, hb⟩ := Map.DelAt_ok d k h
  have hf : d.kv.fault (d.getElemKey k) = none := (KVStore.Has_eq_ok hb).1
  obtain ⟨hn, hfl, _⟩ := Map.DelAt_frame d k
  have hk : (d.DelAt k).1.getElemKey k = d.getElemKey k := by simp [Map.getElemKey, hn]
  simp [Map.HasAt, KVStore.Has, hk, hfl, hf, Map.DelAt_content_self d k h]


theorem Map.keys_ne_of_not_prefix {a b : List Byte} (hab : ¬ a <+: b) (hba : ¬ b <+: a)
    (x y : List Byte) : a ++ x ≠ b ++ y := by
  intro h
  rcases append_eq_append_prefix h with h1 | h1
  · exact hab h1
  · exact hba h1

/-- A map named `nameB` sees the same element records and size record after a
store change that leaves the content outside another, non-prefixing name alone. -/
theorem Map.view_unchanged (B : Map) (s t : KVStore) (hf : t.fault = s.fault)
    (hc : ∀ key, B.name <+: key → t.content key = s.content key) (k : List Byte) :
    (B.withStore t).GetAt k = (B.withStore s).GetAt k ∧
      (B.withStore t).HasAt k = (B.withStore s).HasAt k ∧
      t.content B.getSizeKey = s.content B.getSizeKey ∧
      (B.withStore t).len = (B.withStore s).len := by
  have he : t.content (B.getElemKey k) = s.content (B.getElemKey k) :=
    hc _ ⟨[mapElemKeyCode] ++ k, by simp [Map.getElemKey]⟩
  have hs : t.content B.getSizeKey = s.content B.getSizeKey :=
    hc _ ⟨[mapSizeKeyCode], by simp [Map.getSizeKey]⟩
  refine ⟨?_, ?_, hs, ?_⟩
  · simp [Map.GetAt, Map.withStore, Map.getElemKey, KVStore.Get, hf]
    simp [Map.getElemKey] at he
    rw [he]
  · simp [Map.HasAt, Map.withStore, Map.getElemKey, KVStore.Has, hf]
    simp [Map.getElemKey] at he
    rw [he]
  · simp [Map.len, Map.withStore, Map.getSizeKey, KVStore.Get, hf]
    simp [Map.getSizeKey] at hs
    rw [hs]

theorem Writer.Write_buffer (w : Writer) (p : List Byte) (h : w.room = none) :
    w.Write p = (({ out := w.out ++ p, room := none }, p.length), none) := by
  cases w with
  | mk out room =>
    simp only at h
    subst h
    rfl

theorem Reader.Read_append (a b : List Byte) (h : 0 < a.length) :
    Reader.Read { rest := a ++ b } a.length = ((a, { rest := b }), none) := by
  have hne : (a ++ b).isEmpty = false := by
    cases a with
    | nil => simp at h
    | cons x xs => rfl
  simp [Reader.Read, hne]

theorem rawExternals_uint16 (w w' : Writer) (n : Nat) (hn : n < 2 ^ 16) (hw : w.room = none)
    (h : rawExternals.WriteUint16 w n = (w', none)) :
    ∃ bs, w' = { out := w.out ++ bs, room := none } ∧
      ∀ rest old,
        rawExternals.ReadUint16 { rest := bs ++ rest } old = (({ rest := rest }, n), none) := by
  refine ⟨[octet n 0, octet n 1], ?_, ?_⟩
  · have hb := Writer.Write_buffer w [octet n 0, octet n 1] hw
    simp only [rawExternals, hb, Prod.mk.injEq, and_true] at h
    exact h.symm
  · intro rest old
    have hr := Reader.Read_append [octet n 0, octet n 1] rest (by simp)
    have hd : decodeLE [octet n 0, octet n 1] = n := by
      simp only [decodeLE, octet]
      omega
    simp only [List.length_cons, List.length_nil] at hr
    simp only [rawExternals, hr, hd]

theorem rawExternals_vars (w w' : Writer) (v : List Byte) (hw : w.room = none)
    (h : rawExternals.varsWrite v w = (w', none)) :
    ∃ bs, w' = { out := w.out ++ bs, room := none } ∧
      ∃ r', rawExternals.varsRead rawExternals.varsNew { rest := bs } = ((v, r'), none) := by
  refine ⟨v, ?_, { rest := [] }, rfl⟩
  have hb := Writer.Write_buffer w v hw
  simp only [rawExternals, hb, Prod.mk.injEq, and_true] at h
  exact h.symm

/-! ## The claims -/

/-- C1, evaluated: `NewMap` on an empty store, then `SetAt("x","1")`, then
`DelAt("x")`, both without error.  `Len()` is 1 although no key satisfies
`HasAt`: `setSize(0)` returns before it updates the cached size. -/
theorem C1_len_is_one_with_no_member :
    NewMap KVStore.empty [109] = .ok emptyM ∧
      (emptyM.SetAt [120] [49]).2 = none ∧
      ((emptyM.SetAt [120] [49]).1.DelAt [120]).2 = none ∧
      (emptyM.run [.setAt [120] [49], .delAt [120]]).Len = 1 ∧
      ∀ k, (emptyM.run [.setAt [120] [49], .delAt [120]]).HasAt k = .ok false := by
  refine ⟨rfl, rfl, rfl, rfl, ?_⟩
  intro k
  rfl

/-- C2: if `Write` of a state update into an empty buffer returns no error and
leaves the bytes `b`, then `NewStateUpdateRead` on a reader over `b` returns no
error and a record with the same batch index, request id and variables.  The
assumptions: `ReadUint16` undoes `WriteUint16` on 16-bit values, the payload's
`Read` (into a new payload) undoes its `Write`, the batch index is a 16-bit value
and the request id has the width of its array type, which is not 0. -/
theorem C2_round_trip {V : Type} (E : Externals V) (x : stateUpdate V) (b : List Byte)
    (hwidth : 0 < E.RequestIdSize) (hid : x.requestId.length = E.RequestIdSize)
    (hbi : x.batchIndex < 2 ^ 16)
    (hU16 : ∀ (w w' : Writer) (n : Nat), n < 2 ^ 16 → w.room = none →
      E.WriteUint16 w n = (w', none) →
        ∃ bs, w' = { out := w.out ++ bs, room := none } ∧
          ∀ rest old, E.ReadUint16 { rest := bs ++ rest } old = (({ rest := rest }, n), none))
    (hVars : ∀ (w w' : Writer) (v : V), w.room = none → E.varsWrite v w = (w', none) →
        ∃ bs, w' = { out := w.out ++ bs, room := none } ∧
          ∃ r', E.varsRead E.varsNew { rest := bs } = ((v, r'), none))
    (hw : (x.Write E Writer.buffer).2 = none ∧ (x.Write E Writer.buffer).1.out = b) :
    ∃ y r, NewStateUpdateRead E { rest := b } = ((y, r), none) ∧
      y.batchIndex = x.batchIndex ∧ y.requestId = x.requestId ∧ y.vars = x.vars := by
  obtain ⟨hw2, hw1⟩ := hw
  unfold stateUpdate.Write at hw1 hw2
  -- the batch index
  rcases h1 : E.WriteUint16 Writer.buffer x.batchIndex with ⟨w1, e1⟩
  rw [h1] at hw1 hw2
  cases e1 with
  | some e => simp at hw2
  | none =>
    obtain ⟨bs1, hw1eq, hread1⟩ := hU16 Writer.buffer w1 x.batchIndex hbi rfl h1
    subst hw1eq
    -- the request id
    have h2 := Writer.Write_buffer { out := Writer.buffer.out ++ bs1, room := none }
      x.requestId rfl
    simp only at hw1 hw2 h2
    rw [h2] at hw1 hw2
    simp only at hw1 hw2
    -- the variables
    rcases h3 : E.varsWrite x.vars
      { out := Writer.buffer.out ++ bs1 ++ x.requestId, room := none } with ⟨w3, e3⟩
    rw [h3] at hw1 hw2
    cases e3 with
    | some e => simp at hw2
    | none =>
      obtain ⟨bs3, hw3eq, r', hread3⟩ := hVars _ w3 x.vars rfl h3
      subst hw3eq
      simp only [Writer.buffer, List.nil_append, List.append_assoc] at hw1
      subst hw1
      refine ⟨x, r', ?_, rfl, rfl, rfl⟩
      have hlen : (List.replicate E.RequestIdSize (0 : Byte)).length = x.requestId.length := by
        simp [hid]
      have hpos : 0 < x.requestId.length := by omega
      simp only [NewStateUpdateRead, NewStateUpdate, stateUpdate.Read, hread1, hlen,
        Reader.Read_append _ _ hpos, hread3]
      simp [← hlen]


/-- C2 at `sampleUpdate` with `rawExternals`: the written bytes are
`3 0 1 2 3 4 107 118` and reading them gives the record back. -/
theorem C2_round_trip_witness :
    (sampleUpdate.Write rawExternals Writer.buffer).1.out = [3, 0, 1, 2, 3, 4, 107, 118] ∧
      ∃ y r, NewStateUpdateRead rawExternals { rest := [3, 0, 1, 2, 3, 4, 107, 118] }
          = ((y, r), none) ∧
        y.batchIndex = sampleUpdate.batchIndex ∧ y.requestId = sampleUpdate.requestId ∧
          y.vars = sampleUpdate.vars :=
  ⟨rfl, C2_round_trip rawExternals sampleUpdate [3, 0, 1, 2, 3, 4, 107, 118] (by decide) rfl
    (by decide) rawExternals_uint16 rawExternals_vars ⟨rfl, rfl⟩⟩

/-- C3: for two maps over one store whose names are not byte-prefixes of one
another, every store key of `A` differs from every store key of `B`, and a
`SetAt` or `DelAt` on `A` changes neither `GetAt`/`HasAt` of `B` for any key nor
`B`'s size record (its stored bytes and the count `len` reads from it). -/
theorem C3_namespace_isolation (A B : Map) (hstore : B.kv = A.kv)
    (hAB : ¬ A.name <+: B.name) (hBA : ¬ B.name <+: A.name) :
    (∀ k k', A.getSizeKey ≠ B.getSizeKey ∧ A.getSizeKey ≠ B.getElemKey k' ∧
        A.getElemKey k ≠ B.getSizeKey ∧ A.getElemKey k ≠ B.getElemKey k') ∧
    (∀ k v k',
        (B.withStore (A.SetAt k v).1.kv).GetAt k' = B.GetAt k' ∧
        (B.withStore (A.SetAt k v).1.kv).HasAt k' = B.HasAt k' ∧
        (A.SetAt k v).1.kv.content B.getSizeKey = B.kv.content B.getSizeKey ∧
        (B.withStore (A.SetAt k v).1.kv).len = B.len) ∧
    (∀ k k',
        (B.withStore (A.DelAt k).1.kv).GetAt k' = B.GetAt k' ∧
        (B.withStore (A.DelAt k).1.kv).HasAt k' = B.HasAt k' ∧
        (A.DelAt k).1.kv.content B.getSizeKey = B.kv.content B.getSizeKey ∧
        (B.withStore (A.DelAt k).1.kv).len = B.len) := by
  have hB : B = B.withStore A.kv := by
    cases B
    simp only [Map.withStore] at *
    rw [hstore]
  have hsz : ∀ key, B.name <+: key → key ≠ A.getSizeKey := by
    rintro key ⟨t, rfl⟩ h
    exact Map.keys_ne_of_not_prefix hBA hAB _ _ h
  have hel : ∀ k key, B.name <+: key → key ≠ A.getElemKey k := by
    rintro k key ⟨t, rfl⟩ h
    rw [Map.getElemKey, List.append_assoc] at h
    exact Map.keys_ne_of_not_prefix hBA hAB _ _ h
  refine ⟨?_, ?_, ?_⟩
  · intro k k'
    refine ⟨?_, ?_, ?_, ?_⟩
    · exact Map.keys_ne_of_not_prefix hAB hBA _ _
    · rw [Map.getElemKey, List.append_assoc]
      exact Map.keys_ne_of_not_prefix hAB hBA _ _
    · rw [Map.getElemKey, List.append_assoc]
      exact Map.keys_ne_of_not_prefix hAB hBA _ _
    · rw [Map.getElemKey, List.append_assoc, Map.getElemKey, List.append_assoc]
      exact Map.keys_ne_of_not_prefix hAB hBA _ _
  · intro k v k'
    obtain ⟨_, hf, hc⟩ := Map.SetAt_frame A k v
    have := Map.view_unchanged B A.kv (A.SetAt k v).1.kv hf
      (fun key hk => hc key (hsz key hk) (hel k key hk)) k'
    rw [← hB, ← hstore] at this
    rw [hstore] at this ⊢
    exact this
  · intro k k'
    obtain ⟨_, hf, hc⟩ := Map.DelAt_frame A k
    have := Map.view_unchanged B A.kv (A.DelAt k).1.kv hf
      (fun key hk => hc key (hsz key hk) (hel k key hk)) k'
    rw [← hB, ← hstore] at this
    rw [hstore] at this ⊢
    exact this


/-- C3 at the maps `a` and `b`: `SetAt(7, 5)` on `a` leaves `GetAt(7)` of `b`,
which is the value 9, as it was. -/
theorem C3_namespace_isolation_witness :
    (mapB.withStore (mapA.SetAt [7] [5]).1.kv).GetAt [7] = mapB.GetAt [7] ∧
      mapB.GetAt [7] = .ok (some [9]) :=
  ⟨((C3_namespace_isolation mapA mapB rfl (by decide) (by decide)).2.1 [7] [5] [7]).1, rfl⟩

/-- C4: `NewMap` reads the size record and writes nothing (the returned map holds
the store it was given).  Size record absent: `Len()` is 0.  Present with exactly
4 bytes: `Len()` is the number decoded from them.  Present with another length:
the error `corrupted data` and no map.  `Get` failing: that error and no map. -/
theorem C4_NewMap (kv : KVStore) (name : List Byte) :
    (∀ m, NewMap kv name = .ok m → m.kv = kv ∧ m.name = name) ∧
    (kv.Get (name ++ [mapSizeKeyCode]) = .ok none →
      ∃ m, NewMap kv name = .ok m ∧ m.kv = kv ∧ m.Len = 0) ∧
    (∀ v (h : v.length = 4), kv.Get (name ++ [mapSizeKeyCode]) = .ok (some v) →
      ∃ m, NewMap kv name = .ok m ∧ m.kv = kv ∧ m.Len = MustUint32From4Bytes v h) ∧
    (∀ v, v.length ≠ 4 → kv.Get (name ++ [mapSizeKeyCode]) = .ok (some v) →
      NewMap kv name = .error Error.corruptedData) ∧
    (∀ e, kv.Get (name ++ [mapSizeKeyCode]) = .error e → NewMap kv name = .error e) := by
  refine ⟨?_, ?_, ?_, ?_, ?_⟩
  · intro m hm
    unfold NewMap at hm
    simp only [] at hm
    split at hm
    · cases hm
    · cases hm
      exact ⟨rfl, rfl⟩
  · intro h
    refine ⟨{ kv := kv, name := name, cachedsize := 0 }, ?_, rfl, rfl⟩
    simp [NewMap, Map.len, Map.getSizeKey, h]
  · intro v hv h
    refine ⟨{ kv := kv, name := name, cachedsize := MustUint32From4Bytes v hv }, ?_, rfl, rfl⟩
    simp [NewMap, Map.len, Map.getSizeKey, h, hv]
  · intro v hv h
    simp [NewMap, Map.len, Map.getSizeKey, h, hv]
  · intro e h
    simp [NewMap, Map.len, Map.getSizeKey, h]


/-- C4 on the empty store: no size record, so `Len()` is 0. -/
theorem C4_NewMap_witness :
    ∃ m, NewMap KVStore.empty [109] = .ok m ∧ m.kv = KVStore.empty ∧ m.Len = 0 :=
  (C4_NewMap KVStore.empty [109]).2.1 rfl

/-- C5: the size key is the name followed by the byte 0, the element key is the
name followed by the byte 1 and the element key's bytes; so a map's size key is
never one of its element keys, and different element keys give different store
keys. -/
theorem C5_key_scheme (m : Map) (k k' : List Byte) :
    m.getSizeKey = m.name ++ [0] ∧ m.getElemKey k = m.name ++ [1] ++ k ∧
      m.getSizeKey ≠ m.getElemKey k' ∧ (k ≠ k' → m.getElemKey k ≠ m.getElemKey k') :=
  ⟨rfl, rfl, Map.getSizeKey_ne_getElemKey m k', fun h e => h (Map.getElemKey_inj m e)⟩


/-- C5 at the element keys `1` and `2` of the map named `m`. -/
theorem C5_key_scheme_witness : emptyM.getElemKey [1] ≠ emptyM.getElemKey [2] :=
  (C5_key_scheme emptyM [1] [2]).2.2.2 (by decide)

/-- C6, evaluated: `NewMap` on an empty store, then `SetAt("x","1")`,
`DelAt("x")`, `SetAt("y","2")`, `DelAt("y")`.  The store is left with the size
record, holding the count 1, and that record alone, so no key satisfies `HasAt`:
after the first `DelAt` the cached size is still 1 (`setSize(0)` returns before
it updates it), the second `SetAt` counts up to 2 and the second `DelAt` writes 1
where it should delete the record. -/
theorem C6_size_record_left_behind :
    NewMap KVStore.empty [109] = .ok emptyM ∧
      (emptyM.run [.setAt [120] [49], .delAt [120], .setAt [121] [50], .delAt [121]]).kv.content
        emptyM.getSizeKey = some (Uint32To4Bytes 1) ∧
      (emptyM.run [.setAt [120] [49], .delAt [120], .setAt [121] [50], .delAt [121]]).kv.entries
        = [([109, 0], Uint32To4Bytes 1)] ∧
      ∀ k, (emptyM.run [.setAt [120] [49], .delAt [120], .setAt [121] [50],
        .delAt [121]]).HasAt k = .ok false := by
  refine ⟨rfl, by decide, by decide, ?_⟩
  intro k
  have h : (emptyM.run [.setAt [120] [49], .delAt [120], .setAt [121] [50], .delAt [121]])
      = { kv := { entries := [([109, 0], Uint32To4Bytes 1)], fault := fun _ => none },
          name := [109], cachedsize := 1 } := by rfl
  rw [h]
  simp [Map.HasAt, KVStore.Has, KVStore.content, Map.getElemKey, lookupEntry, mapElemKeyCode]

/-- C7: on a map with `Len() < 2^32 - 1`, `SetAt` of a key for which `HasAt` is
false returns no error, makes `Len()` one more, leaves the 4-byte encoding of the
new `Len()` in the size record, and `GetAt` of the key then returns the value. -/
theorem C7_SetAt_absent_key (d : Map) (k v : List Byte) (hlen : d.Len < 2 ^ 32 - 1)
    (habs : d.HasAt k = .ok false) :
    (d.SetAt k v).2 = none ∧ (d.SetAt k v).1.Len = d.Len + 1 ∧
      (d.SetAt k v).1.kv.content (d.SetAt k v).1.getSizeKey
        = some (Uint32To4Bytes ((d.SetAt k v).1.Len)) ∧
      (d.SetAt k v).1.GetAt k = .ok (some v) := by
  have hf : d.kv.fault (d.getElemKey k) = none := (KVStore.Has_eq_ok habs).1
  have hp := Map.setSize_pos d (Nat.succ_ne_zero d.Len)
  have hs : (d.setSize (d.Len + 1)).getSizeKey = d.getSizeKey := Map.setSize_getSizeKey _ _
  rw [Map.SetAt_of_absent d k v hlen habs]
  refine ⟨rfl, hp.1, ?_, ?_⟩
  · change ((d.setSize (d.Len + 1)).kv.Set (d.getElemKey k) v).content
      (d.setSize (d.Len + 1)).getSizeKey = some (Uint32To4Bytes (d.setSize (d.Len + 1)).cachedsize)
    rw [hs, hp.1, KVStore.content_Set_ne _ (Map.getSizeKey_ne_getElemKey d k)]
    exact hp.2
  · simp only [Map.getElemKey, List.append_assoc, List.singleton_append] at hf
    simp [Map.GetAt, Map.getElemKey, KVStore.Get, hf]


/-- C7 at the first `SetAt` on a new map over an empty store. -/
theorem C7_SetAt_absent_key_witness :
    (emptyM.SetAt [120] [49]).2 = none ∧ (emptyM.SetAt [120] [49]).1.Len = emptyM.Len + 1 ∧
      (emptyM.SetAt [120] [49]).1.kv.content (emptyM.SetAt [120] [49]).1.getSizeKey
        = some (Uint32To4Bytes ((emptyM.SetAt [120] [49]).1.Len)) ∧
      (emptyM.SetAt [120] [49]).1.GetAt [120] = .ok (some [49]) :=
  C7_SetAt_absent_key emptyM [120] [49] (by decide) rfl

/-- C8 fails at a cached size of 0: `NewMap` on a store that holds an element
record for `x` but no size record returns a map with `Len() = 0`; `HasAt("x")` is
true, yet `SetAt("x", _)` changes `Len()` and the size record. -/
theorem C8_cached_zero_skips_check :
    NewMap orphanStore [109] = .ok orphanM ∧ orphanM.HasAt [120] = .ok true ∧
      ¬ ((orphanM.SetAt [120] [50]).1.Len = orphanM.Len ∧
          (orphanM.SetAt [120] [50]).1.kv.content orphanM.getSizeKey
            = orphanM.kv.content orphanM.getSizeKey) := by
  refine ⟨rfl, rfl, ?_⟩
  intro h
  exact absurd h.1 (by decide)

/-- C8, amended: on a map whose cached size is not 0, `SetAt` of a key with
`HasAt` true returns no error, leaves `Len()` and the size record as they were,
and changes the store only under the key's element key, which then holds the
value.  On a map whose cached size is 0, `SetAt` makes no existence check:
whatever `HasAt` of the key would return, a store error included, it returns no
error, `Len()` becomes 1, the size record the encoding of 1, and the value is
stored under the key. -/
theorem C8_SetAt_present_key (d : Map) (k v : List Byte) :
    (d.Len ≠ 0 → d.HasAt k = .ok true →
      (d.SetAt k v).2 = none ∧ (d.SetAt k v).1.Len = d.Len ∧
      (d.SetAt k v).1.kv.content d.getSizeKey = d.kv.content d.getSizeKey ∧
      (d.SetAt k v).1.kv.content (d.getElemKey k) = some v ∧
      ∀ key, key ≠ d.getElemKey k → (d.SetAt k v).1.kv.content key = d.kv.content key) ∧
    (d.Len = 0 →
      d.SetAt k v
        = ({ d.setSize 1 with kv := (d.setSize 1).kv.Set (d.getElemKey k) v }, none) ∧
      (d.SetAt k v).2 = none ∧ (d.SetAt k v).1.Len = 1 ∧
      (d.SetAt k v).1.kv.content d.getSizeKey = some (Uint32To4Bytes 1) ∧
      (d.SetAt k v).1.kv.content (d.getElemKey k) = some v) := by
  constructor
  · intro hlen hpres
    rw [Map.SetAt_of_present d k v hlen hpres]
    refine ⟨rfl, rfl, ?_, ?_, ?_⟩
    · exact KVStore.content_Set_ne _ (Map.getSizeKey_ne_getElemKey d k) _
    · exact KVStore.content_Set_self _ _ _
    · intro key hkey
      exact KVStore.content_Set_ne _ hkey _
  · intro hlen
    have hp := Map.setSize_pos d Nat.one_ne_zero
    rw [Map.SetAt_of_len_zero d k v hlen]
    refine ⟨rfl, rfl, hp.1, ?_, ?_⟩
    · change ((d.setSize 1).kv.Set (d.getElemKey k) v).content d.getSizeKey = _
      rw [KVStore.content_Set_ne _ (Map.getSizeKey_ne_getElemKey d k)]
      exact hp.2
    · exact KVStore.content_Set_self _ _ _


/-- C8, amended, at a map holding the key `x`, where setting `x` again keeps
`Len()` at 1, and at a new map over a store whose reads of the element key of
`x` fail, where `HasAt("x")` returns the store's error and `SetAt("x", _)`
returns none and makes `Len()` 1. -/
theorem C8_SetAt_present_key_witness :
    ((emptyM.SetAt [120] [49]).1.SetAt [120] [50]).1.Len = (emptyM.SetAt [120] [49]).1.Len ∧
      deafM.HasAt [120] = .error (Error.store 1) ∧
      (deafM.SetAt [120] [50]).2 = none ∧ (deafM.SetAt [120] [50]).1.Len = 1 :=
  ⟨((C8_SetAt_present_key (emptyM.SetAt [120] [49]).1 [120] [50]).1 (by decide) rfl).2.1,
    rfl,
    ((C8_SetAt_present_key deafM [120] [50]).2 rfl).2.1,
    ((C8_SetAt_present_key deafM [120] [50]).2 rfl).2.2.1⟩

/-- C9: when `DelAt(k)` returns no error, afterwards `HasAt(k)` is false and
`GetAt(k)` finds nothing, whatever the cached size was, and `HasAt` and `GetAt` of
every other key give what they gave before. -/
theorem C9_DelAt_removes_only_k (d : Map) (k : List Byte) (hok : (d.DelAt k).2 = none) :
    (d.DelAt k).1.HasAt k = .ok false ∧ (d.DelAt k).1.GetAt k = .ok none ∧
      ∀ k', k' ≠ k →
        (d.DelAt k).1.HasAt k' = d.HasAt k' ∧ (d.DelAt k).1.GetAt k' = d.GetAt k' := by
  obtain ⟨b, hb⟩ := Map.DelAt_ok d k hok
  have hf : d.kv.fault (d.getElemKey k) = none := (KVStore.Has_eq_ok hb).1
  obtain ⟨hn, hfl, hc⟩ := Map.DelAt_frame d k
  have hk : ∀ x, (d.DelAt k).1.getElemKey x = d.getElemKey x := by
    intro x
    simp [Map.getElemKey, hn]
  refine ⟨Map.HasAt_after_DelAt d k hok, ?_, ?_⟩
  · simp [Map.GetAt, KVStore.Get, hk, hfl, hf, Map.DelAt_content_self d k hok]
  · intro k' hne
    have hkey : d.getElemKey k' ≠ d.getElemKey k := fun e => hne (Map.getElemKey_inj d e)
    have hcc := hc (d.getElemKey k') (Map.getSizeKey_ne_getElemKey d k').symm hkey
    constructor
    · simp [Map.HasAt, KVStore.Has, hk, hfl, hcc]
    · simp [Map.GetAt, KVStore.Get, hk, hfl, hcc]


/-- C9 at a map holding the key `x`: after `DelAt("x")`, `HasAt("x")` is false. -/
theorem C9_DelAt_removes_only_k_witness :
    ((emptyM.SetAt [120] [49]).1.DelAt [120]).1.HasAt [120] = .ok false :=
  (C9_DelAt_removes_only_k (emptyM.SetAt [120] [49]).1 [120] rfl).1

/-- C10: `DelAt` of a key for which `HasAt` is false returns no error and leaves
the map, its `Len()` and the whole store as they were; so a second `DelAt` of a
key, after a first one that returned no error, changes nothing. -/
theorem C10_DelAt_absent_key (d : Map) (k : List Byte) :
    (d.HasAt k = .ok false →
      (d.DelAt k).2 = none ∧ (d.DelAt k).1.Len = d.Len ∧
      (d.DelAt k).1.kv.entries = d.kv.entries ∧ (d.DelAt k).1 = d) ∧
    ((d.DelAt k).2 = none → (d.DelAt k).1.DelAt k = ((d.DelAt k).1, none)) := by
  constructor
  · intro habs
    rw [Map.DelAt_of_absent d k habs]
    exact ⟨rfl, rfl, rfl, rfl⟩
  · intro hok
    exact Map.DelAt_of_absent _ k (Map.HasAt_after_DelAt d k hok)


/-- C10 at a new map over an empty store: `DelAt("x")` changes nothing. -/
theorem C10_DelAt_absent_key_witness :
    (emptyM.DelAt [120]).2 = none ∧ (emptyM.DelAt [120]).1.Len = emptyM.Len ∧
      (emptyM.DelAt [120]).1.kv.entries = emptyM.kv.entries ∧ (emptyM.DelAt [120]).1 = emptyM :=
  (C10_DelAt_absent_key emptyM [120]).1 rfl

/-! ## Facts about `Iterate`, `MustMap`, the state-update record and `Committee` -/

theorem Map.SetAt_content_self (d : Map) (k v : List Byte) (h : (d.SetAt k v).2 = none) :
    (d.SetAt k v).1.kv.content (d.getElemKey k) = some v := by
  by_cases h0 : d.Len = 0
  · rw [Map.SetAt_of_len_zero d k v h0]
    exact KVStore.content_Set_self _ _ _
  · unfold Map.SetAt at h ⊢
    rw [if_neg h0] at h ⊢
    cases hh : d.HasAt k with
    | error e => simp [hh] at h
    | ok b => cases b <;> simp

/-- The reading operations of `MustMap` panic with the error of the `Map`
operation. -/
theorem MustMap.read_ops_panic_on_error (d : MustMap) (key : List Byte) (e : Error) :
    (d.m.GetAt key = .error e → d.GetAt key = .panicked (Panic.err e)) ∧
    (d.m.HasAt key = .error e → d.HasAt key = .panicked (Panic.err e)) ∧
    (∀ {σ : Type} (f : σ → List Byte → List Byte → Bool × σ) (init : σ),
      (d.m.Iterate f init).2 = some e → (d.Iterate f init).2 = .panicked (Panic.err e)) := by
  refine ⟨?_, ?_, ?_⟩
  · intro h
    simp [MustMap.GetAt, h]
  · intro h
    simp [MustMap.HasAt, h]
  · intro σ f init h
    unfold MustMap.Iterate
    rcases hh : d.m.Iterate f init with ⟨st, r⟩
    rw [hh] at h
    simp only at h
    subst h
    rfl

theorem committeeLoop_spec (nodes : List Node) (idx : List Int) (acc : List String) :
    ((∃ i ∈ idx, i < 0 ∨ (nodes.length : Int) ≤ i) ∧
        ∃ e, committeeLoop nodes idx acc = .error e) ∨
      ((∀ i ∈ idx, 0 ≤ i ∧ i < (nodes.length : Int)) ∧
        ∃ l, committeeLoop nodes idx acc = .ok (acc ++ l) ∧
          List.Forall₂ (isUrlOf nodes) idx l) := by
  induction idx generalizing acc with
  | nil =>
    right
    exact ⟨by simp, [], by simp [committeeLoop], List.Forall₂.nil⟩
  | cons i rest ih =>
    by_cases h : i < 0 ∨ i > (nodes.length : Int) - 1
    · left
      refine ⟨⟨i, List.mem_cons_self _ _, ?_⟩, ?_⟩
      · rcases h with h | h
        · exact Or.inl h
        · exact Or.inr (by omega)
      · exact ⟨CommitteeError.nodeIndexOutOfBounds i, by simp [committeeLoop, h]⟩
    · have hlt : i.toNat < nodes.length := by omega
      have hstep : committeeLoop nodes (i :: rest) acc
          = committeeLoop nodes rest (acc ++ [(nodes.get ⟨i.toNat, hlt⟩).url]) := by
        simp [committeeLoop, h]
      rw [hstep]
      rcases ih (acc ++ [(nodes.get ⟨i.toNat, hlt⟩).url]) with ⟨⟨j, hj, hbad⟩, he⟩ | ⟨hall, l, hl, hf⟩
      · left
        exact ⟨⟨j, List.mem_cons_of_mem _ hj, hbad⟩, he⟩
      · right
        refine ⟨?_, (nodes.get ⟨i.toNat, hlt⟩).url :: l, ?_, ?_⟩
        · intro j hj
          rcases List.mem_cons.mp hj with rfl | hj
          · omega
          · exact hall j hj
        · rw [hl]
          simp
        · refine List.Forall₂.cons ⟨nodes.get ⟨i.toNat, hlt⟩, ?_, rfl⟩ hf
          exact List.get?_eq_get hlt

theorem scanEntries_eq_visit {σ : Type} (pfx : Key)
    (f : σ → List Byte → List Byte → Bool × σ) (init : σ) (l : List (Key × List Byte)) :
    scanEntries pfx (fun st key value => f st (key.drop pfx.length) value) init l
      = visitUntilStop f init
          ((l.filter (fun e => decide (pfx <+: e.1))).map
            (fun e => (e.1.drop pfx.length, e.2))) := by
  induction l generalizing init with
  | nil => rfl
  | cons e rest ih =>
    obtain ⟨k, v⟩ := e
    by_cases hp : pfx <+: k
    · simp only [scanEntries, hp, if_true, List.filter_cons, decide_True, List.map_cons,
        visitUntilStop]
      rcases hf : f init (List.drop pfx.length k) v with ⟨b, st'⟩
      cases b
      · rfl
      · exact ih st'
    · simp only [scanEntries, hp, if_false, List.filter_cons, decide_False]
      exact ih init

theorem Map.getElemKey_eq_append (d : Map) (k : List Byte) :
    d.getElemKey k = d.getElemKey [] ++ k := by
  simp [Map.getElemKey]

theorem Map.mem_records (d : Map) (k v : List Byte) :
    (k, v) ∈ d.records ↔ (d.getElemKey k, v) ∈ d.kv.entries := by
  unfold Map.records
  rw [Map.getElemKey_eq_append d k]
  generalize d.getElemKey [] = pfx
  simp only [List.mem_map, List.mem_filter, decide_eq_true_eq, Prod.mk.injEq]
  constructor
  · rintro ⟨⟨key, val⟩, ⟨hmem, ⟨t, ht⟩⟩, hk, hv⟩
    simp only at hk hv ht
    subst hv
    subst ht
    rw [List.drop_left] at hk
    subst hk
    exact hmem
  · intro hmem
    exact ⟨(pfx ++ k, v), ⟨hmem, ⟨k, rfl⟩⟩, by simp, rfl⟩

theorem lookupEntry_eq_some_iff {l : List (Key × List Byte)} (hnd : (l.map Prod.fst).Nodup)
    (k : Key) (v : List Byte) : lookupEntry k l = some v ↔ (k, v) ∈ l := by
  induction l with
  | nil => simp [lookupEntry]
  | cons e rest ih =>
    obtain ⟨k', v'⟩ := e
    simp only [List.map_cons, List.nodup_cons] at hnd
    by_cases hk : k' = k
    · subst hk
      simp only [lookupEntry, if_true, Option.some.injEq, List.mem_cons, Prod.mk.injEq,
        true_and]
      constructor
      · intro h
        exact Or.inl h.symm
      · rintro (h | h)
        · exact h.symm
        · exact absurd (List.mem_map_of_mem Prod.fst h) hnd.1
    · have hk' : ¬ k = k' := fun e => hk e.symm
      simp only [lookupEntry, hk, if_false, List.mem_cons, Prod.mk.injEq, hk', false_and,
        false_or]
      exact ih hnd.2

theorem Map.records_keys_nodup (d : Map) (hnd : (d.kv.entries.map Prod.fst).Nodup) :
    (d.records.map Prod.fst).Nodup := by
  unfold Map.records
  generalize d.getElemKey [] = pfx
  generalize d.kv.entries = l at hnd
  induction l with
  | nil => simp
  | cons e rest ih =>
    obtain ⟨k, v⟩ := e
    simp only [List.map_cons, List.nodup_cons] at hnd
    by_cases hp : pfx <+: k
    · simp only [List.filter_cons, hp, decide_True, if_true, List.map_cons, List.nodup_cons]
      refine ⟨?_, ih hnd.2⟩
      intro hmem
      simp only [List.mem_map, List.mem_filter, decide_eq_true_eq] at hmem
      obtain ⟨_, ⟨⟨k2, v2⟩, ⟨hm2, hp2⟩, rfl⟩, hk⟩ := hmem
      simp only at hk hp2
      obtain ⟨t, rfl⟩ := hp
      obtain ⟨t2, rfl⟩ := hp2
      rw [List.drop_left, List.drop_left] at hk
      subst hk
      exact hnd.1 (List.mem_map_of_mem Prod.fst hm2)
    · simp only [List.filter_cons, hp, decide_False]
      exact ih hnd.2

theorem visitUntilStop_logCalls_all (acc recs : List (List Byte × List Byte)) :
    visitUntilStop (logCalls (fun _ _ => true)) acc recs = acc ++ recs := by
  induction recs generalizing acc with
  | nil => simp [visitUntilStop]
  | cons r rest ih =>
    obtain ⟨k, v⟩ := r
    simp [visitUntilStop, logCalls, ih]

theorem visitUntilStop_logCalls_stop (go : List Byte → List Byte → Bool)
    (acc pre post : List (List Byte × List Byte)) (k v : List Byte)
    (hpre : ∀ r ∈ pre, go r.1 r.2 = true) (hstop : go k v = false) :
    visitUntilStop (logCalls go) acc (pre ++ (k, v) :: post) = acc ++ pre ++ [(k, v)] := by
  induction pre generalizing acc with
  | nil => simp [visitUntilStop, logCalls, hstop]
  | cons r rest ih =>
    obtain ⟨k', v'⟩ := r
    have h1 : go k' v' = true := hpre (k', v') (List.mem_cons_self _ _)
    have h2 : ∀ r ∈ rest, go r.1 r.2 = true := fun r hr => hpre r (List.mem_cons_of_mem _ hr)
    simp [visitUntilStop, logCalls, h1, ih _ h2]

theorem Writer.Write_out (w w2 : Writer) (p : List Byte) (n : Nat)
    (h : w.Write p = ((w2, n), none)) : w2.out = w.out ++ p := by
  unfold Writer.Write at h
  cases hr : w.room with
  | none =>
    simp only [hr, Prod.mk.injEq, and_true] at h
    rw [← h.1]
  | some m =>
    simp only [hr] at h
    split at h
    · simp only [Prod.mk.injEq, and_true] at h
      rw [← h.1]
    · simp at h

/-- The error `Read` returns, in terms of its three reads. -/
theorem stateUpdate.Read_error {V : Type} (E : Externals V) (su : stateUpdate V) (r : Reader) :
    (su.Read E r).2 =
      match E.ReadUint16 r su.batchIndex with
      | ((_, _), some err) => some err
      | ((r1, _), none) =>
        match r1.Read su.requestId.length with
        | ((_, _), some err) => some err
        | ((_, r2), none) => (E.varsRead su.vars r2).2 := by
  unfold stateUpdate.Read
  rcases E.ReadUint16 r su.batchIndex with ⟨⟨r1, bi⟩, e1⟩
  cases e1 with
  | some e => rfl
  | none =>
    simp only
    rcases r1.Read su.requestId.length with ⟨⟨got, r2⟩, e2⟩
    cases e2 with
    | some e => rfl
    | none =>
      simp only
      rcases E.varsRead su.vars r2 with ⟨⟨vs, r3⟩, e3⟩
      cases e3 <;> rfl

/-- When the reader holds at least one byte but no more than the request id is
wide after the batch index, `r.Read(su.requestId[:])` returns no error, and the
error of `Read` is the one the payload's `Read` returns at the end of the
input. -/
theorem stateUpdate.Read_short_requestId {V : Type} (E : Externals V) (su : stateUpdate V)
    (r r1 : Reader) (bi : Nat) (h1 : E.ReadUint16 r su.batchIndex = ((r1, bi), none))
    (hne : r1.rest ≠ []) (hle : r1.rest.length ≤ su.requestId.length) :
    (su.Read E r).2 = (E.varsRead su.vars { rest := [] }).2 := by
  have hemp : r1.rest.isEmpty = false := by
    cases hr : r1.rest with
    | nil => exact absurd hr hne
    | cons a t => rfl
  rw [stateUpdate.Read_error, h1]
  simp only [Reader.Read, hemp, List.drop_eq_nil_of_le hle]
  rfl

theorem keyLt_irrefl (k : Key) : keyLt k k = false := by
  induction k with
  | nil => rfl
  | cons a t ih => simp [keyLt, ih]

theorem keyLt_trans {a b c : Key} (h1 : keyLt a b = true) (h2 : keyLt b c = true) :
    keyLt a c = true := by
  induction a generalizing b c with
  | nil =>
    cases c with
    | nil =>
      cases b <;> simp [keyLt] at h1 h2
    | cons z zs => rfl
  | cons x xs ih =>
    cases b with
    | nil => simp [keyLt] at h1
    | cons y ys =>
      cases c with
      | nil => simp [keyLt] at h2
      | cons z zs =>
        simp only [keyLt] at h1 h2 ⊢
        by_cases hxy : x < y
        · by_cases hyz : y < z
          · simp [lt_trans hxy hyz]
          · by_cases hyz' : y = z
            · subst hyz'
              simp [hxy]
            · simp [hyz, hyz'] at h2
        · by_cases hxy' : x = y
          · subst hxy'
            simp only [hxy, if_false, if_true] at h1
            by_cases hyz : x < z
            · simp [hyz]
            · by_cases hyz' : x = z
              · subst hyz'
                simp only [hyz, if_false, if_true] at h2 ⊢
                exact ih h1 h2
              · simp [hyz, hyz'] at h2
          · simp [hxy, hxy'] at h1

theorem keyLt_of_not_le {a b : Key} (h : keyLt a b = false) (hne : b ≠ a) :
    keyLt b a = true := by
  induction a generalizing b with
  | nil =>
    cases b with
    | nil => exact absurd rfl hne
    | cons y ys => simp [keyLt] at h
  | cons x xs ih =>
    cases b with
    | nil => rfl
    | cons y ys =>
      simp only [keyLt] at h ⊢
      by_cases hxy : x < y
      · simp [hxy] at h
      · by_cases hxy' : x = y
        · subst hxy'
          simp only [hxy, if_false, if_true] at h ⊢
          exact ih h (fun e => hne (by rw [e]))
        · have hyx : y < x := lt_of_le_of_ne (not_lt.mp hxy) (fun e => hxy' e.symm)
          simp [hyx]

theorem mem_insertEntry {k : Key} {v : List Byte} {l : List (Key × List Byte)}
    {e : Key × List Byte} (h : e ∈ insertEntry k v l) : e = (k, v) ∨ e ∈ l := by
  induction l with
  | nil =>
    simp only [insertEntry, List.mem_singleton] at h
    exact Or.inl h
  | cons x rest ih =>
    obtain ⟨k', v'⟩ := x
    simp only [insertEntry] at h
    split at h
    · rcases List.mem_cons.mp h with h | h
      · exact Or.inl h
      · exact Or.inr h
    · split at h
      · rcases List.mem_cons.mp h with h | h
        · exact Or.inl h
        · exact Or.inr (List.mem_cons_of_mem _ h)
      · rcases List.mem_cons.mp h with h | h
        · exact Or.inr (h ▸ List.mem_cons_self _ _)
        · rcases ih h with h | h
          · exact Or.inl h
          · exact Or.inr (List.mem_cons_of_mem _ h)

theorem sortedEntries_insertEntry (k : Key) (v : List Byte) {l : List (Key × List Byte)}
    (h : sortedEntries l) : sortedEntries (insertEntry k v l) := by
  unfold sortedEntries at h ⊢
  induction l with
  | nil => simp [insertEntry]
  | cons x rest ih =>
    obtain ⟨k', v'⟩ := x
    obtain ⟨hhead, htail⟩ := List.pairwise_cons.mp h
    simp only [insertEntry]
    split
    · next hlt =>
      refine List.pairwise_cons.mpr ⟨?_, h⟩
      intro e he
      rcases List.mem_cons.mp he with rfl | he
      · exact hlt
      · exact keyLt_trans hlt (hhead e he)
    · next hlt =>
      split
      · next heq =>
        subst heq
        exact List.pairwise_cons.mpr ⟨hhead, htail⟩
      · next hne =>
        refine List.pairwise_cons.mpr ⟨?_, ih htail⟩
        intro e he
        rcases mem_insertEntry he with rfl | he
        · exact keyLt_of_not_le (by simpa using hlt) hne
        · exact hhead e he

theorem eraseEntry_sublist (k : Key) (l : List (Key × List Byte)) :
    (eraseEntry k l).Sublist l := by
  induction l with
  | nil => exact List.Sublist.slnil
  | cons x rest ih =>
    obtain ⟨k', v'⟩ := x
    simp only [eraseEntry]
    split
    · exact List.Sublist.cons _ ih
    · exact List.Sublist.cons₂ _ ih

theorem sortedEntries_eraseEntry (k : Key) {l : List (Key × List Byte)}
    (h : sortedEntries l) : sortedEntries (eraseEntry k l) :=
  List.Pairwise.sublist (eraseEntry_sublist k l) h

theorem nodup_keys_of_sortedEntries {l : List (Key × List Byte)} (h : sortedEntries l) :
    (l.map Prod.fst).Nodup := by
  unfold sortedEntries at h
  rw [List.Nodup, List.pairwise_map]
  refine List.Pairwise.imp ?_ h
  intro a b hab heq
  rw [heq, keyLt_irrefl] at hab
  cases hab

/-- Every store that `Set` and `Del` build from one with sorted keys has sorted
keys, so its keys are distinct; the empty store is one. -/
theorem KVStore.sorted_Set_Del (s : KVStore) (k : Key) (v : List Byte)
    (h : sortedEntries s.entries) :
    sortedEntries (s.Set k v).entries ∧ sortedEntries (s.Del k).entries ∧
      (s.entries.map Prod.fst).Nodup ∧ sortedEntries KVStore.empty.entries :=
  ⟨sortedEntries_insertEntry k v h, sortedEntries_eraseEntry k h,
    nodup_keys_of_sortedEntries h, List.Pairwise.nil⟩


theorem Map.sorted_setSize (m : Map) (n : Nat) (h : sortedEntries m.kv.entries) :
    sortedEntries (m.setSize n).kv.entries := by
  unfold Map.setSize
  split
  · exact sortedEntries_eraseEntry _ h
  · exact sortedEntries_insertEntry _ _ h

/-- `SetAt` and `DelAt` keep the store's keys sorted, hence distinct. -/
theorem Map.sorted_SetAt_DelAt (d : Map) (k v : List Byte) (h : sortedEntries d.kv.entries) :
    sortedEntries (d.SetAt k v).1.kv.entries ∧ sortedEntries (d.DelAt k).1.kv.entries := by
  constructor
  · unfold Map.SetAt
    split
    · exact sortedEntries_insertEntry _ _ (Map.sorted_setSize d 1 h)
    · cases d.HasAt k with
      | error e => exact h
      | ok b =>
        cases b
        · exact sortedEntries_insertEntry _ _ (Map.sorted_setSize d _ h)
        · exact sortedEntries_insertEntry _ _ h
  · unfold Map.DelAt
    cases d.HasAt k with
    | error e => exact h
    | ok b =>
      cases b
      · exact sortedEntries_eraseEntry _ h
      · exact sortedEntries_eraseEntry _ (Map.sorted_setSize d _ h)

/-! ## The claims on `Iterate`, `MustMap`, `Erase`, the record layout and `Committee` -/

/-- C11, evaluated: `NewMap` on an empty store, then `SetAt("x","1")` and
`DelAt("x")`.  `Len()` of the live instance is 1, while the size record is absent,
the persisted count is 0 and a fresh `NewMap` on the same store and name reports
`Len() = 0`. -/
theorem C11_len_differs_from_size_record :
    NewMap KVStore.empty [109] = .ok emptyM ∧
      (emptyM.run [.setAt [120] [49], .delAt [120]]).Len = 1 ∧
      (emptyM.run [.setAt [120] [49], .delAt [120]]).kv.content emptyM.getSizeKey = none ∧
      (emptyM.run [.setAt [120] [49], .delAt [120]]).len = .ok 0 ∧
      ∃ fresh, NewMap (emptyM.run [.setAt [120] [49], .delAt [120]]).kv [109] = .ok fresh ∧
        fresh.Len = 0 :=
  ⟨rfl, rfl, rfl, rfl, emptyM, rfl, rfl⟩

/-- C12, evaluated on the map with the key `x` over a store whose reads of the
element key of `y` fail: `Map.SetAt("y", _)` and `Map.DelAt("y")` return the
store's error, and `MustMap.SetAt` and `MustMap.DelAt` return normally, leaving
the store as it was; `MustMap.HasAt` and `MustMap.GetAt` panic on the same key. -/
theorem C12_MustMap_SetAt_DelAt_drop_error :
    NewMap flakyStore [109] = .ok flakyM ∧
      (flakyM.SetAt [121] [50]).2 = some (Error.store 1) ∧
      ((NewMustMap flakyM).SetAt [121] [50]).2 = .returned () ∧
      ((NewMustMap flakyM).SetAt [121] [50]).1.m.kv.entries = flakyStore.entries ∧
      (flakyM.DelAt [121]).2 = some (Error.store 1) ∧
      ((NewMustMap flakyM).DelAt [121]).2 = .returned () ∧
      ((NewMustMap flakyM).DelAt [121]).1.m.kv.entries = flakyStore.entries ∧
      (NewMustMap flakyM).HasAt [121] = .panicked (Panic.err (Error.store 1)) ∧
      (NewMustMap flakyM).GetAt [121] = .panicked (Panic.err (Error.store 1)) :=
  ⟨rfl, rfl, rfl, rfl, rfl, rfl, rfl, rfl, rfl⟩

/-- C13: on a store whose keys are distinct and whose scan does not fail,
`Iterate(f)` returns no error and does what `visitUntilStop` does on the map's
records: it calls `f` on them in the store's order, once each, until `f` returns
false.  The records are the pairs `(k, v)` with `v` stored under the element key
of `k`, each key once, and none of them is the size record.  So a visitor that
always goes on is called on every record, and one that stops is called on the
records up to the one it stops at and on no other.  (Keys are distinct in
every store built by `Set` and `Del` from the empty one, see
`KVStore.sorted_Set_Del`.) -/
theorem C13_Iterate_visits_members {σ : Type} (d : Map)
    (f : σ → List Byte → List Byte → Bool × σ) (init : σ)
    (hnd : (d.kv.entries.map Prod.fst).Nodup)
    (hscan : d.kv.scanFault (d.getElemKey []) = none) :
    d.Iterate f init = (visitUntilStop f init d.records, none) ∧
      (∀ k v, (k, v) ∈ d.records ↔ d.kv.content (d.getElemKey k) = some v) ∧
      (d.records.map Prod.fst).Nodup ∧
      (∀ k v, (k, v) ∈ d.records → d.getElemKey k ≠ d.getSizeKey) ∧
      (d.Iterate (logCalls (fun _ _ => true)) []).1 = d.records ∧
      (∀ go pre post k v, d.records = pre ++ (k, v) :: post →
        (∀ r ∈ pre, go r.1 r.2 = true) → go k v = false →
          (d.Iterate (logCalls go) []).1 = pre ++ [(k, v)]) := by
  have hit : ∀ {τ : Type} (g : τ → List Byte → List Byte → Bool × τ) (i : τ),
      d.Iterate g i = (visitUntilStop g i d.records, none) := by
    intro τ g i
    simp only [Map.Iterate, KVStore.Iterate, hscan, Map.records]
    rw [scanEntries_eq_visit]
  refine ⟨hit f init, ?_, Map.records_keys_nodup d hnd, ?_, ?_, ?_⟩
  · intro k v
    rw [Map.mem_records, KVStore.content, lookupEntry_eq_some_iff hnd]
  · intro k v _
    exact (Map.getSizeKey_ne_getElemKey d k).symm
  · rw [hit, visitUntilStop_logCalls_all]
    rfl
  · intro go pre post k v hrec hpre hstop
    rw [hit, hrec, visitUntilStop_logCalls_stop go [] pre post k v hpre hstop]
    rfl

/-- C13 at the map with the keys `x`, `y`, `z`, whose store also holds a record
of another map: a visitor that stops at once is called on `x` alone. -/
theorem C13_Iterate_visits_members_witness :
    threeM.records = [([120], [49]), ([121], [50]), ([122], [51])] ∧
      threeM.Iterate (logCalls (fun _ _ => false)) []
        = (visitUntilStop (logCalls (fun _ _ => false)) [] threeM.records, none) ∧
      (threeM.Iterate (logCalls (fun _ _ => false)) []).1 = [([120], [49])] :=
  ⟨by decide,
    (C13_Iterate_visits_members threeM (logCalls (fun _ _ => false)) [] (by decide) rfl).1,
    by decide⟩

/-- C14: `Write` makes three writes in this order, `util.WriteUint16` of the
batch index, `w.Write` of the request id and the payload's `Write`, and returns
the first error among them, making no later write.  When `WriteUint16` appends
the two bytes `bs1` and the payload's `Write` appends `bs3`, all without error,
the output is what was there before followed by `bs1`, the request id and `bs3`,
and it has grown by `2 + len(requestId) + len(bs3)` bytes. -/
theorem C14_Write_layout {V : Type} (E : Externals V) (su : stateUpdate V) (w : Writer) :
    (∀ w1 e, E.WriteUint16 w su.batchIndex = (w1, some e) → su.Write E w = (w1, some e)) ∧
    (∀ w1 w2 n e, E.WriteUint16 w su.batchIndex = (w1, none) →
      w1.Write su.requestId = ((w2, n), some e) → su.Write E w = (w2, some e)) ∧
    (∀ w1 w2 n, E.WriteUint16 w su.batchIndex = (w1, none) →
      w1.Write su.requestId = ((w2, n), none) → su.Write E w = E.varsWrite su.vars w2) ∧
    (∀ w1 w2 w3 n bs1 bs3, E.WriteUint16 w su.batchIndex = (w1, none) →
      w1.out = w.out ++ bs1 → bs1.length = 2 →
      w1.Write su.requestId = ((w2, n), none) →
      E.varsWrite su.vars w2 = (w3, none) → w3.out = w2.out ++ bs3 →
        su.Write E w = (w3, none) ∧
        (su.Write E w).1.out = w.out ++ bs1 ++ su.requestId ++ bs3 ∧
        (su.Write E w).1.out.length
          = w.out.length + (2 + su.requestId.length + bs3.length)) := by
  have h3 : ∀ w1 w2 n, E.WriteUint16 w su.batchIndex = (w1, none) →
      w1.Write su.requestId = ((w2, n), none) → su.Write E w = E.varsWrite su.vars w2 := by
    intro w1 w2 n h1 h2
    unfold stateUpdate.Write
    rw [h1]
    simp only
    rw [h2]
    simp only
    rcases E.varsWrite su.vars w2 with ⟨w3, r⟩
    cases r <;> rfl
  refine ⟨?_, ?_, h3, ?_⟩
  · intro w1 e h1
    unfold stateUpdate.Write
    rw [h1]
  · intro w1 w2 n e h1 h2
    unfold stateUpdate.Write
    rw [h1]
    simp only
    rw [h2]
  · intro w1 w2 w3 n bs1 bs3 h1 ho1 hl1 h2 hv ho3
    have hw : su.Write E w = (w3, none) := by rw [h3 w1 w2 n h1 h2, hv]
    have ho2 := Writer.Write_out w1 w2 su.requestId n h2
    have hout : w3.out = w.out ++ bs1 ++ su.requestId ++ bs3 := by rw [ho3, ho2, ho1]
    refine ⟨hw, ?_, ?_⟩
    · rw [hw]
      exact hout
    · rw [hw]
      simp only [hout, List.length_append, hl1]
      omega

/-- C14 at `sampleUpdate` with `rawExternals`: into an empty buffer the bytes are
`3 0`, `1 2 3 4`, `107 118`; into a writer with room for 3 bytes the write of the
request id fails and its error is returned. -/
theorem C14_Write_layout_witness :
    sampleUpdate.Write rawExternals Writer.buffer
        = ({ out := [3, 0, 1, 2, 3, 4, 107, 118], room := none }, none) ∧
      (sampleUpdate.Write rawExternals Writer.buffer).1.out
        = Writer.buffer.out ++ [3, 0] ++ sampleUpdate.requestId ++ [107, 118] ∧
      (sampleUpdate.Write rawExternals Writer.buffer).1.out.length
        = Writer.buffer.out.length + (2 + sampleUpdate.requestId.length + 2) ∧
      sampleUpdate.Write rawExternals { out := [], room := some 3 }
        = ({ out := [3, 0, 1], room := some 0 }, some (Error.writer 0)) :=
  ⟨((C14_Write_layout rawExternals sampleUpdate Writer.buffer).2.2.2
      { out := [3, 0], room := none } { out := [3, 0, 1, 2, 3, 4], room := none }
      { out := [3, 0, 1, 2, 3, 4, 107, 118], room := none } 4 [3, 0] [107, 118]
      rfl rfl rfl rfl rfl rfl).1,
   ((C14_Write_layout rawExternals sampleUpdate Writer.buffer).2.2.2
      { out := [3, 0], room := none } { out := [3, 0, 1, 2, 3, 4], room := none }
      { out := [3, 0, 1, 2, 3, 4, 107, 118], room := none } 4 [3, 0] [107, 118]
      rfl rfl rfl rfl rfl rfl).2.1,
   ((C14_Write_layout rawExternals sampleUpdate Writer.buffer).2.2.2
      { out := [3, 0], room := none } { out := [3, 0, 1, 2, 3, 4], room := none }
      { out := [3, 0, 1, 2, 3, 4, 107, 118], room := none } 4 [3, 0] [107, 118]
      rfl rfl rfl rfl rfl rfl).2.2,
   (C14_Write_layout rawExternals sampleUpdate { out := [], room := some 3 }).2.1
      { out := [3, 0], room := some 1 } { out := [3, 0, 1], room := some 0 } 1
      (Error.writer 0) rfl rfl⟩

/-- C16: the name `a`, the name `a` followed by the byte 1, and the element key
`0`: the first name is a proper byte-prefix of the second, the element key of
(`a`, `0`) is the size key of the second name, so a `SetAt(0, v)` on a map with
the first name that returns no error leaves `v` as the size record of a map
with the second name over the same store.  On an empty store, after
`SetAt(0, 9 0 0 0)` through the map named `a`, `NewMap` for the second name
reports `Len() = 9`. -/
theorem C16_prefix_names_collide :
    ∃ nameA nameB k : List Byte, nameA <+: nameB ∧ nameA ≠ nameB ∧
      (∀ A B : Map, A.name = nameA → B.name = nameB →
        A.getElemKey k = B.getSizeKey ∧
        ∀ v, (A.SetAt k v).2 = none → (A.SetAt k v).1.kv.content B.getSizeKey = some v) ∧
      collideA.name = nameA ∧
      (∃ m, NewMap collideA.kv nameB = .ok m ∧ m.Len = 0) ∧
      (∃ m, NewMap (collideA.SetAt k [9, 0, 0, 0]).1.kv nameB = .ok m ∧ m.Len = 9) := by
  refine ⟨[97], [97, 1], [0], by decide, by decide, ?_, rfl, ⟨_, rfl, rfl⟩, ⟨_, rfl, rfl⟩⟩
  intro A B hA hB
  have hk : A.getElemKey [0] = B.getSizeKey := by
    simp [Map.getElemKey, Map.getSizeKey, hA, hB, mapElemKeyCode, mapSizeKeyCode]
  refine ⟨hk, ?_⟩
  intro v hv
  rw [← hk]
  exact Map.SetAt_content_self A [0] v hv

/-- C17: `Erase` ends in a panic for every map, never in a normal return, and
the map and its store are then as they were before the call. -/
theorem C17_Erase_panics (d : Map) :
    (d.Erase).2 = .panicked Panic.implementMe ∧ (∀ u, (d.Erase).2 ≠ .returned u) ∧
      (d.Erase).1 = d ∧ (d.Erase).1.kv.entries = d.kv.entries := by
  refine ⟨rfl, ?_, rfl, rfl⟩
  intro u h
  cases h

/-- C19: `Committee` returns an error exactly when some index of
`sc.CommitteeNodes` is negative or at least the number of nodes; otherwise it
returns a list as long as `sc.CommitteeNodes` whose entries are, position by
position, the `NetAddress:ApiPort` strings of the nodes at those indices. -/
theorem C19_Committee (cluster : Cluster) (sc : SmartContractInitData) :
    ((∃ e, cluster.Committee sc = .error e) ↔
      ∃ i ∈ sc.CommitteeNodes, i < 0 ∨ (cluster.Config.Nodes.length : Int) ≤ i) ∧
    ((∀ i ∈ sc.CommitteeNodes, 0 ≤ i ∧ i < (cluster.Config.Nodes.length : Int)) →
      ∃ l, cluster.Committee sc = .ok l ∧ l.length = sc.CommitteeNodes.length ∧
        List.Forall₂ (isUrlOf cluster.Config.Nodes) sc.CommitteeNodes l ∧
        ∀ j i, sc.CommitteeNodes.get? j = some i →
          ∃ node, cluster.Config.Nodes.get? i.toNat = some node ∧
            l.get? j = some (node.NetAddress ++ ":" ++ toString node.ApiPort)) := by
  unfold Cluster.Committee
  rcases committeeLoop_spec cluster.Config.Nodes sc.CommitteeNodes []
    with ⟨hbad, e, he⟩ | ⟨hall, l, hl, hf⟩
  · refine ⟨⟨fun _ => hbad, fun _ => ⟨e, he⟩⟩, ?_⟩
    intro hall
    obtain ⟨i, hi, hb⟩ := hbad
    have := hall i hi
    omega
  · rw [List.nil_append] at hl
    refine ⟨⟨?_, ?_⟩, ?_⟩
    · rintro ⟨e, he⟩
      rw [hl] at he
      cases he
    · rintro ⟨i, hi, hb⟩
      have := hall i hi
      omega
    · intro _
      refine ⟨l, hl, hf.length_eq.symm, hf, ?_⟩
      intro j i hji
      have hget := List.forall₂_iff_get.mp hf
      have hj : j < sc.CommitteeNodes.length := by
        rcases Nat.lt_or_ge j sc.CommitteeNodes.length with h | h
        · exact h
        · rw [List.get?_eq_none.mpr h] at hji
          cases hji
      have hj' : j < l.length := hget.1 ▸ hj
      have hR := hget.2 j hj hj'
      have hi : sc.CommitteeNodes.get ⟨j, hj⟩ = i := by
        rw [List.get?_eq_get hj] at hji
        exact Option.some.inj hji
      rw [hi] at hR
      obtain ⟨node, hn, hu⟩ := hR
      refine ⟨node, hn, ?_⟩
      rw [List.get?_eq_get hj', hu]
      rfl


/-- C19 on a cluster of two nodes: the indices `1 0 1` give a list of three
entries, the indices `1 2 -1` an error. -/
theorem C19_Committee_witness :
    (∃ l, twoNodes.Committee { CommitteeNodes := [1, 0, 1] } = .ok l ∧ l.length = 3) ∧
      twoNodes.Committee { CommitteeNodes := [1, 0, 1] }
        = .ok ["127.0.0.1:9091", "127.0.0.1:9090", "127.0.0.1:9091"] ∧
      ∃ e, twoNodes.Committee { CommitteeNodes := [1, 2, -1] } = .error e :=
  ⟨((C19_Committee twoNodes { CommitteeNodes := [1, 0, 1] }).2 (by decide)).imp
      (fun _ h => ⟨h.1, h.2.1⟩),
    rfl,
    (C19_Committee twoNodes { CommitteeNodes := [1, 2, -1] }).1.mpr ⟨2, by decide, by decide⟩⟩

end Wasp
